import Mathlib

/-!
Verification development for the universal-reranker package: a shallow
embedding of the result cache and normalization layer in
`src/nodes/shared/rerank.helpers.ts` (and its variant `src/unnamed/part_003`,
which adds template wrapping), together with the per-item orchestration of
`src/nodes/UniversalRerankerFlow/UniversalRerankerFlow.node.ts`.

Modelling conventions:
* JavaScript numbers are embedded as rationals (`ℚ`); `NaN` is a separate
  constructor of the score-value type.  Timestamps and TTL minutes are
  integers (`Int`), matching `Date.now()` and the integral `cacheTtl` node
  parameter.
* The score fields of a raw backend result may hold, besides numbers, the
  JavaScript values `undefined`, `null`, `NaN` and booleans; the short-circuit
  `||` chains of the source are embedded through an explicit truthiness
  predicate.
* The process-wide `Map` cache is embedded as an insertion-ordered
  association list with explicit state passing; `Map.set` keeps the position
  of an existing key, `Map.delete` removes the (unique) entry for a key.
* The remote HTTP call is an oracle argument (`Except Unit` of the decoded
  body): the network's answer is not determined by the program.
* Document text extraction over arbitrary (possibly cyclic) JavaScript
  objects is embedded separately with an explicit heap (`JStore`), so that
  `JSON.stringify`'s cycle error is representable.
-/

deriving instance DecidableEq for Except

namespace URR

/-! ### JavaScript score values

`SVal` covers the JavaScript values that can appear in the `relevance_score` /
`score` fields of a backend response entry in this model: `undefined`,
`null`, `NaN`, finite numbers and booleans. -/

inductive SVal : Type where
  | undefined : SVal
  | jsNull : SVal
  | nan : SVal
  | num : ℚ → SVal
  | bool : Bool → SVal
deriving DecidableEq, Repr

/-- JavaScript truthiness of an `SVal` (`undefined`, `null`, `NaN`, `0` and
`false` are falsy). -/
def SVal.truthy : SVal → Bool
  | .undefined => false
  | .jsNull => false
  | .nan => false
  | .num q => decide (q ≠ 0)
  | .bool b => b

/-- JavaScript `ToNumber` on an `SVal`; `none` stands for `NaN`. -/
def SVal.toNumOpt : SVal → Option ℚ
  | .undefined => none
  | .jsNull => some 0
  | .nan => none
  | .num q => some q
  | .bool b => some (if b then 1 else 0)

/-- Numeric value of an `SVal`, defaulting `NaN` to `0`; used as the sort
key.  Resolved scores are either a truthy value of this type or the literal
`0`, so their `ToNumber` image is never `NaN` and the default is inert. -/
def SVal.asNum (v : SVal) : ℚ := (v.toNumOpt).getD 0

/-- JavaScript `a || b`: `a` if truthy, else `b`. -/
def jsOr (a b : SVal) : SVal := if a.truthy then a else b

/-- JavaScript `v >= θ` for a number `θ`: `ToNumber` the left side, `false`
when it is `NaN`. -/
def jsGeNum (v : SVal) (θ : ℚ) : Bool :=
  match v.toNumOpt with
  | none => false
  | some q => decide (θ ≤ q)

/-! ### Raw backend results and scored results -/

/-- One entry of the backend's `results` list: `relevance_score`, `score`
(either possibly absent, i.e. `undefined`) and `index`. -/
structure RawResult : Type where
  relScore : SVal
  score : SVal
  index : Int
deriving DecidableEq, Repr

/-- `(r.relevance_score || r.score || 0)` of the source. -/
def resolveScore (rel sc : SVal) : SVal := jsOr rel (jsOr sc (SVal.num 0))

/-- A processed result: the shallow-copied original document
(`none` = `undefined` when `r.index` is out of range), the `_rerankScore`
field and the `_originalIndex` field. -/
structure ScoredResult (α : Type) : Type where
  doc : Option α
  rerankScore : SVal
  originalIndex : Int
deriving DecidableEq, Repr

/-- `originalDocs[r.index]` of the source: `undefined` (`none`) when the
index is negative or past the end. -/
def jsIndex (docs : List α) (i : Int) : Option α :=
  if h : 0 ≤ i ∧ i.toNat < docs.length then some (docs.get ⟨i.toNat, h.2⟩) else none

/-- Error conditions of the result processor: the `NodeOperationError` for a
missing/non-array `results` value, and the `TypeError` raised by
`originalDoc._originalScore` when `includeOriginalScores` holds and the
index was out of range. -/
inductive ProcErr : Type where
  | invalidResults : ProcErr
  | typeErr : ProcErr
deriving DecidableEq, Repr

/-- The `.map` stage of `processRerankResults`: build one `ScoredResult` per
(already filtered) raw entry, in order. -/
def buildResults (docs : List α) (includeOrig : Bool) :
    List RawResult → Except ProcErr (List (ScoredResult α))
  | [] => .ok []
  | r :: rs =>
    let d := jsIndex docs r.index
    if includeOrig ∧ d.isNone then .error .typeErr
    else
      match buildResults docs includeOrig rs with
      | .error e => .error e
      | .ok l => .ok (⟨d, resolveScore r.relScore r.score, r.index⟩ :: l)

/-- Sort comparator of the source, `(a, b) => b._rerankScore - a._rerankScore`,
as a boolean "a comes before-or-ties b" relation (descending numeric order). -/
def scoreLe (a b : ScoredResult α) : Bool :=
  decide (SVal.asNum b.rerankScore ≤ SVal.asNum a.rerankScore)

/-- Stable insertion into a list sorted by `le` (model of the engine's stable
`Array.prototype.sort` on a consistent comparator). -/
def insDesc (le : α → α → Bool) (y : α) : List α → List α
  | [] => [y]
  | z :: zs => if le y z then y :: z :: zs else z :: insDesc le y zs

/-- Stable sort by `le`. -/
def sortJS (le : α → α → Bool) : List α → List α
  | [] => []
  | x :: xs => insDesc le x (sortJS le xs)

/-- `processRerankResults(self, results, originalDocs, threshold,
includeOriginalScores)` of the source: reject a missing/non-array results
value, filter by `(r.relevance_score || r.score || 0) >= threshold`, map each
survivor to a `ScoredResult`, sort descending by `_rerankScore`. -/
def processRerankResults (results : Option (List RawResult)) (docs : List α)
    (θ : ℚ) (includeOrig : Bool) : Except ProcErr (List (ScoredResult α)) :=
  match results with
  | none => .error .invalidResults
  | some rs =>
    match buildResults docs includeOrig
        (rs.filter (fun r => jsGeNum (resolveScore r.relScore r.score) θ)) with
    | .error e => .error e
    | .ok l => .ok (sortJS scoreLe l)

/-! ### The result cache

`rerankCache` is a process-wide `Map<string, CacheEntry>`; it is embedded as
an insertion-ordered association list threaded explicitly through the
operations. -/

/-- A cache entry: the stored result list and the insertion timestamp
(milliseconds, as from `Date.now()`). -/
structure CacheEntry (α : Type) : Type where
  results : List (ScoredResult α)
  timestamp : Int
deriving DecidableEq, Repr

/-- The cache state: fingerprint-keyed entries in insertion order. -/
abbrev Cache (α : Type) := List (String × CacheEntry α)

/-- `Map.prototype.get`. -/
def mapGet (c : Cache α) (k : String) : Option (CacheEntry α) :=
  (c.find? (fun p => p.1 = k)).map Prod.snd

/-- `Map.prototype.delete`: remove the entry under `k` (keys are unique in
every reachable cache state, so erasing the first match is `Map` deletion). -/
def mapDelete (c : Cache α) (k : String) : Cache α :=
  c.eraseP (fun p => p.1 = k)

/-- `Map.prototype.set`: overwrite in place when the key exists (keeping its
insertion position), else append. -/
def mapSet (c : Cache α) (k : String) (e : CacheEntry α) : Cache α :=
  if c.any (fun p => p.1 = k) then
    c.map (fun p => if p.1 = k then (k, e) else p)
  else c ++ [(k, e)]

/-- `getCachedResult(key, ttlMinutes)` of the source, with `Date.now()` passed
as `now`: return the stored results when the entry is younger than
`ttlMinutes * 60 * 1000` ms; delete an expired entry; return `none` otherwise.
The pair carries the cache state after the call. -/
def getCachedResult (c : Cache α) (k : String) (ttlMinutes now : Int) :
    Option (List (ScoredResult α)) × Cache α :=
  let ttlMs := ttlMinutes * 60 * 1000
  match mapGet c k with
  | some e => if now - e.timestamp < ttlMs then (some e.results, c) else (none, mapDelete c k)
  | none => (none, c)

/-- `setCachedResult(key, results)` of the source: insert with the current
timestamp; when the map then holds more than 1000 entries, delete the first
inserted key — guarded by the source's truthiness test `if (firstKey)`, which
skips deletion when that key is the empty string. -/
def setCachedResult (c : Cache α) (k : String) (results : List (ScoredResult α))
    (now : Int) : Cache α :=
  let c1 := mapSet c k ⟨results, now⟩
  if 1000 < c1.length then
    match c1 with
    | [] => c1
    | (k0, _) :: _ => if k0 = "" then c1 else mapDelete c1 k0
  else c1

/-! ### Fingerprint (cache key)

`createCacheKey(query, docs, service, model)` hashes the query and the
JSON-serialized list of extracted document texts with a 32-bit rolling hash
and composes `service:model:queryHash:docsHash`. -/

/-- JavaScript `ToInt32`: wrap an integer into `[-2^31, 2^31)`. -/
def toInt32 (n : Int) : Int := (n + 2 ^ 31) % 2 ^ 32 - 2 ^ 31

/-- One step of the source's `simpleHash` loop:
`hash = ((hash << 5) - hash) + charCode; hash = hash & hash`. -/
def hashStep (h : Int) (c : Char) : Int := toInt32 (toInt32 (h * 32) - h + c.toNat)

/-- Digit character for `Number.prototype.toString(36)`: `0-9` then `a-z`. -/
def digit36 (n : Nat) : Char :=
  if n < 10 then Char.ofNat (48 + n) else Char.ofNat (87 + n)

/-- Base-36 digit list of `n`; structural recursion on explicit fuel so the
definition evaluates inside the kernel.  One fuel unit is spent per emitted
digit, so fuel 32 is exact for every `n < 36 ^ 32` — in particular for every
`Math.abs` of a 32-bit hash value, the only inputs that occur. -/
def b36Aux : Nat → Nat → List Char
  | _, 0 => []
  | n, fuel + 1 => if n < 36 then [digit36 n] else b36Aux (n / 36) fuel ++ [digit36 (n % 36)]

/-- `Number.prototype.toString(36)` for a natural number. -/
def natToBase36 (n : Nat) : String := String.mk (b36Aux n 32)

/-- `simpleHash` of the source: fold the rolling 32-bit hash over the UTF-16
code units (code points, which agree on the basic plane), then
`Math.abs(hash).toString(36)`. -/
def simpleHash (s : String) : String :=
  natToBase36 (s.data.foldl hashStep 0).natAbs

/-- Hex digit character (lowercase), for JSON `\uXXXX` escapes. -/
def hexDigit (n : Nat) : Char :=
  if n < 10 then Char.ofNat (48 + n) else Char.ofNat (87 + n)

/-- JSON escaping of one character, as `JSON.stringify` performs on strings. -/
def jsonEscapeChar (c : Char) : List Char :=
  if c = '"' then ['\\', '"']
  else if c = '\\' then ['\\', '\\']
  else if c = '\n' then ['\\', 'n']
  else if c = '\r' then ['\\', 'r']
  else if c = '\t' then ['\\', 't']
  else if c.toNat = 8 then ['\\', 'b']
  else if c.toNat = 12 then ['\\', 'f']
  else if c.toNat < 32 then
    ['\\', 'u', '0', '0', hexDigit (c.toNat / 16), hexDigit (c.toNat % 16)]
  else [c]

/-- `JSON.stringify` of a string. -/
def jsonQuote (s : String) : String :=
  String.mk ('"' :: (s.data.flatMap jsonEscapeChar) ++ ['"'])

/-- `JSON.stringify` of an array of strings. -/
def jsonStringArray (xs : List String) : String :=
  "[" ++ String.intercalate (",") (xs.map jsonQuote) ++ "]"

/-- `createCacheKey(query, docs, service, model)` of the source.  The inline
document-text extraction (`d?.pageContent || d?.text || d?.content ||
d?.document || JSON.stringify(d)`) is factored out as the `extractF`
parameter; its JavaScript-value semantics, including the cyclic-object
behavior, is embedded separately below (`extractText`). -/
def createCacheKey (extractF : α → String) (query : String) (docs : List α)
    (service model : String) : String :=
  let documentTexts := docs.map extractF
  let docsString := jsonStringArray documentTexts
  service ++ ":" ++ model ++ ":" ++ simpleHash query ++ ":" ++ simpleHash docsString

/-! ### Backend adapters

`rerankWithOpenAI` / `rerankWithCohere` check the cache when enabled, call
the remote service on a miss, process the response and store the processed
list.  The remote call is an oracle argument; node parameters are grouped in
configuration records. -/

/-- Template configuration of the `part_003` variant of `rerankWithOpenAI`
(field names follow the node parameters; `queryPref`/`querySuf`/`docPref`/
`docSuf` stand for the `queryPrefix`/`querySuffix`/`documentPrefix`/
`documentSuffix` parameters). -/
structure TemplateCfg : Type where
  enableCustomTemplates : Bool
  templatePreset : String
  queryPref : String
  querySuf : String
  docPref : String
  docSuf : String
  instruction : String
deriving DecidableEq, Repr

/-- The fixed Qwen3 query template of the source. -/
def qwen3QueryPre : String :=
  "<|im_start|>system\nJudge whether the Document meets the requirements based on the Query and the Instruct provided. Note that the answer can only be \"yes\" or \"no\".<|im_end|>\n<|im_start|>user\n"

/-- The fixed Qwen3 document suffix of the source. -/
def qwen3DocSuf : String :=
  "<|im_end|>\n<|im_start|>assistant\n<think>\n\n</think>\n\n"

/-- `finalQuery` of the source: the query text actually sent to the remote
service after optional template wrapping. -/
def buildFinalQuery (tpl : TemplateCfg) (query : String) : String :=
  if tpl.enableCustomTemplates then
    if tpl.templatePreset = "qwen3" then
      qwen3QueryPre ++ "<Instruct>: " ++ tpl.instruction ++ "\n<Query>: " ++ query ++ "\n"
    else tpl.queryPref ++ query ++ tpl.querySuf
  else query

/-- `finalDocuments` of the source: the document texts actually sent after
optional template wrapping. -/
def buildFinalDocs (tpl : TemplateCfg) (texts : List String) : List String :=
  if tpl.enableCustomTemplates then
    if tpl.templatePreset = "qwen3" then
      texts.map (fun doc => "<Document>: " ++ doc ++ qwen3DocSuf)
    else texts.map (fun doc => tpl.docPref ++ doc ++ tpl.docSuf)
  else texts

/-- Node parameters of the OpenAI-compatible adapter. -/
structure OpenAICfg : Type where
  endpoint : String
  model : String
  enableCache : Bool
  cacheTtl : Int
  tpl : TemplateCfg
deriving DecidableEq, Repr

/-- The JSON request body `{ model, query, documents, top_n }` sent to the
OpenAI-compatible endpoint. -/
structure RequestBody : Type where
  model : String
  query : String
  documents : List String
  topN : Nat
deriving DecidableEq, Repr

/-- The request body `rerankWithOpenAI` sends: templated query/documents and
`top_n: Math.min(topK, docs.length)`. -/
def openAIRequestBody (extractF : α → String) (cfg : OpenAICfg) (query : String)
    (docs : List α) (topK : Nat) : RequestBody :=
  ⟨cfg.model, buildFinalQuery cfg.tpl query,
    buildFinalDocs cfg.tpl (docs.map extractF), min topK docs.length⟩

/-- The cache key `rerankWithOpenAI` uses, on both the lookup and the store
site: `createCacheKey(query, docs, 'openai-compatible', model)` — computed
from the raw query and raw extracted texts, never from templated text. -/
def openAIUsedKey (extractF : α → String) (cfg : OpenAICfg) (query : String)
    (docs : List α) : String :=
  createCacheKey extractF query docs ("openai-compatible") cfg.model

/-- Failure modes of one adapter call: transport/API failure of the HTTP
request, a processing error re-thrown by the catch block, or (Cohere only)
failed credential resolution. -/
inductive RerankErr : Type where
  | httpErr : RerankErr
  | procErr : ProcErr → RerankErr
  | credErr : RerankErr
deriving DecidableEq, Repr

/-- The cache-hit path shared by both adapters:
`cached.filter(doc => doc._rerankScore >= threshold).slice(0, topK)`. -/
def cacheServe (cached : List (ScoredResult α)) (θ : ℚ) (topK : Nat) :
    List (ScoredResult α) :=
  (cached.filter (fun d => jsGeNum d.rerankScore θ)).take topK

/-- The shared try-block of an adapter: consult the network oracle, process
the decoded `response.results`, and on success store the processed list when
caching is enabled.  `key` is the fingerprint to store under. -/
def remoteAndStore (docs : List α) (θ : ℚ) (includeOrig : Bool)
    (enableCache : Bool) (key : String) (c : Cache α) (now : Int)
    (net : Except Unit (Option (List RawResult))) :
    Except RerankErr (List (ScoredResult α)) × Cache α :=
  match net with
  | .error _ => (.error .httpErr, c)
  | .ok results =>
    match processRerankResults results docs θ includeOrig with
    | .error e => (.error (.procErr e), c)
    | .ok processed =>
      (.ok processed, if enableCache then setCachedResult c key processed now else c)

/-- `rerankWithOpenAI` of the source (`rerank.helpers.ts` and the `part_003`
variant share this cache/process/store behavior): on a cache hit, re-filter
the stored list with the current threshold and truncate to `topK`; on a miss
or with caching disabled, call the remote service, process, store the
processed list, and return it (without local truncation). -/
def rerankWithOpenAI (extractF : α → String) (cfg : OpenAICfg) (query : String)
    (docs : List α) (topK : Nat) (θ : ℚ) (includeOrig : Bool)
    (cache : Cache α) (now : Int)
    (net : Except Unit (Option (List RawResult))) :
    Except RerankErr (List (ScoredResult α)) × Cache α :=
  if cfg.enableCache then
    match getCachedResult cache (openAIUsedKey extractF cfg query docs) cfg.cacheTtl now with
    | (some cached, c1) => (.ok (cacheServe cached θ topK), c1)
    | (none, c1) =>
      remoteAndStore docs θ includeOrig true (openAIUsedKey extractF cfg query docs) c1 now net
  else
    remoteAndStore docs θ includeOrig false (openAIUsedKey extractF cfg query docs) cache now net

/-- Node parameters of the Cohere adapter. -/
structure CohereCfg : Type where
  cohereModel : String
  cohereCustomModel : String
  enableCache : Bool
  cacheTtl : Int
deriving DecidableEq, Repr

/-- Model resolution of the Cohere adapter: the `custom` selection reads the
`cohereCustomModel` parameter. -/
def cohereResolvedModel (cfg : CohereCfg) : String :=
  if cfg.cohereModel = "custom" then cfg.cohereCustomModel else cfg.cohereModel

/-- `rerankWithCohere` of the source.  `cred` is the resolved API key
(`none` when both the primary and the legacy credential lookups fail, which
aborts the call before any cache or network activity). -/
def rerankWithCohere (extractF : α → String) (cfg : CohereCfg)
    (cred : Option String) (query : String) (docs : List α) (topK : Nat)
    (θ : ℚ) (includeOrig : Bool) (cache : Cache α) (now : Int)
    (net : Except Unit (Option (List RawResult))) :
    Except RerankErr (List (ScoredResult α)) × Cache α :=
  match cred with
  | none => (.error .credErr, cache)
  | some _ =>
    if cfg.enableCache then
      match getCachedResult cache
          (createCacheKey extractF query docs ("cohere") (cohereResolvedModel cfg))
          cfg.cacheTtl now with
      | (some cached, c1) => (.ok (cacheServe cached θ topK), c1)
      | (none, c1) =>
        remoteAndStore docs θ includeOrig true
          (createCacheKey extractF query docs ("cohere") (cohereResolvedModel cfg)) c1 now net
    else
      remoteAndStore docs θ includeOrig false
        (createCacheKey extractF query docs ("cohere") (cohereResolvedModel cfg)) cache now net

/-! ### Per-item orchestration of the flow node -/

/-- JavaScript whitespace (the common set recognized by
`String.prototype.trim`). -/
def jsWhitespace (c : Char) : Bool :=
  c = ' ' ∨ c = '\t' ∨ c = '\n' ∨ c = '\r' ∨ c.toNat = 11 ∨ c.toNat = 12 ∨ c.toNat = 160

/-- `String.prototype.trim`. -/
def jsTrim (s : String) : String :=
  String.mk (((s.data.dropWhile jsWhitespace).reverse.dropWhile jsWhitespace).reverse)

/-- The value found under the configured documents field of an input item:
absent, present but not an array, or an array of documents. -/
inductive DocsVal (α : Type) : Type where
  | missing : DocsVal α
  | notArray : DocsVal α
  | arr : List α → DocsVal α
deriving DecidableEq, Repr

/-- The fields the flow node adds to the output item's JSON. -/
structure FlowOut (α : Type) : Type where
  rerankedDocs : List (ScoredResult α)
  originalCount : Nat
  rerankedCount : Nat
  query : String
deriving DecidableEq, Repr

/-- Error outcomes of one item of `UniversalRerankerFlow.execute`. -/
inductive FlowErr : Type where
  | emptyQuery : FlowErr
  | noDocs : FlowErr
  | unsupportedService : FlowErr
  | backendFail : RerankErr → FlowErr
deriving DecidableEq, Repr

/-- One iteration of the `execute` loop of `UniversalRerankerFlow`: validate
the query and the documents field, short-circuit an empty document array,
else dispatch on the service.  The returned `Bool` records whether a backend
adapter was invoked (and hence whether any network/cache activity could have
occurred). -/
def executeItem (extractF : α → String) (service query : String)
    (docsVal : DocsVal α) (topK : Nat) (θ : ℚ) (includeOrig : Bool)
    (ocfg : OpenAICfg) (ccfg : CohereCfg) (cred : Option String)
    (cache : Cache α) (now : Int)
    (net : Except Unit (Option (List RawResult))) :
    Except FlowErr (FlowOut α) × Cache α × Bool :=
  if query = "" ∨ jsTrim query = "" then (.error .emptyQuery, cache, false)
  else
    match docsVal with
    | .missing => (.error .noDocs, cache, false)
    | .notArray => (.error .noDocs, cache, false)
    | .arr docs =>
      if docs.length = 0 then (.ok ⟨[], 0, 0, query⟩, cache, false)
      else if service = "openai-compatible" then
        match rerankWithOpenAI extractF ocfg query docs topK θ includeOrig cache now net with
        | (.ok rs, c1) => (.ok ⟨rs, docs.length, rs.length, query⟩, c1, true)
        | (.error e, c1) => (.error (.backendFail e), c1, true)
      else if service = "cohere" then
        match rerankWithCohere extractF ccfg cred query docs topK θ includeOrig cache now net with
        | (.ok rs, c1) => (.ok ⟨rs, docs.length, rs.length, query⟩, c1, true)
        | (.error e, c1) => (.error (.backendFail e), c1, true)
      else (.error .unsupportedService, cache, false)

/-! ### Document text extraction over JavaScript values

The extraction expression
`d?.pageContent || d?.text || d?.content || d?.document || JSON.stringify(d)`
is embedded over an explicit heap so that self-referential objects are
representable.  `JVal.obj a` is a reference to slot `a` of the store; a
store slot is the object's ordered field list. -/

/-- A JavaScript value for the document model: primitives plus a reference
into the store. -/
inductive JVal : Type where
  | undefined : JVal
  | jsNull : JVal
  | bool : Bool → JVal
  | num : Int → JVal
  | str : String → JVal
  | obj : Nat → JVal
deriving DecidableEq, Repr

/-- The heap: slot `a` holds the ordered field list of object `a`. -/
abbrev JStore := List (List (String × JVal))

/-- Truthiness of a `JVal`. -/
def JVal.truthy : JVal → Bool
  | .undefined => false
  | .jsNull => false
  | .bool b => b
  | .num n => decide (n ≠ 0)
  | .str s => decide (s ≠ "")
  | .obj _ => true

/-- Optional-chained field access `v?.f`: `undefined` unless `v` is an object
owning the field.  (Primitive receivers have no own properties here, matching
the source's use on document records.) -/
def getField (st : JStore) (v : JVal) (f : String) : JVal :=
  match v with
  | .obj a =>
    match (st.getD a []).find? (fun p => p.1 = f) with
    | some p => p.2
    | none => .undefined
  | _ => .undefined

/-- `JSON.stringify` over the store.  `stack` holds the addresses of the
objects currently being serialized: revisiting one raises the
circular-structure `TypeError` (`Except.error`).  `.ok none` is the `undefined` result
(top-level `undefined`; omitted as an object member).  One fuel unit is spent
per object nesting level, so `st.length + 1` suffices for every terminating
run because the stack holds distinct addresses. -/
def stringifyV (st : JStore) : Nat → List Nat → JVal → Except Unit (Option String)
  | 0, _, _ => .error ()
  | _ + 1, _, .undefined => .ok none
  | _ + 1, _, .jsNull => .ok (some ("null"))
  | _ + 1, _, .bool b => .ok (some (if b then "true" else "false"))
  | _ + 1, _, .num n => .ok (some (toString n))
  | _ + 1, _, .str s => .ok (some (jsonQuote s))
  | fuel + 1, stack, .obj a =>
    if a ∈ stack then .error ()
    else do
      let parts ← (st.getD a []).foldlM (fun (acc : List String) fv => do
        match ← stringifyV st fuel (a :: stack) fv.2 with
        | none => pure acc
        | some s => pure (acc ++ [jsonQuote fv.1 ++ ":" ++ s])) []
      pure (some ("\x7b" ++ String.intercalate (",") parts ++ "\x7d"))

/-- `JSON.stringify(d)` at top level. -/
def jsonStringifyDoc (st : JStore) (v : JVal) : Except Unit (Option String) :=
  stringifyV st (st.length + 1) [] v

/-- The document text extraction expression of the source:
first truthy among `pageContent`, `text`, `content`, `document`, else
`JSON.stringify(d)` (whose circular-structure `TypeError` propagates as
`Except.error`, and whose `undefined` result passes through as the value of
the `||` chain). -/
def extractText (st : JStore) (v : JVal) : Except Unit JVal :=
  let p := getField st v ("pageContent")
  if p.truthy then .ok p
  else
    let t := getField st v ("text")
    if t.truthy then .ok t
    else
      let c := getField st v ("content")
      if c.truthy then .ok c
      else
        let d := getField st v ("document")
        if d.truthy then .ok d
        else
          match jsonStringifyDoc st v with
          | .error e => .error e
          | .ok none => .ok .undefined
          | .ok (some s) => .ok (.str s)

/-- Whether some of the four named text fields holds a truthy value. -/
def hasTruthyTextField (st : JStore) (v : JVal) : Bool :=
  (getField st v ("pageContent")).truthy || (getField st v ("text")).truthy ||
    (getField st v ("content")).truthy || (getField st v ("document")).truthy

/-! ### Lemmas about the sort model -/

theorem length_insDesc (le : α → α → Bool) (y : α) (l : List α) :
    (insDesc le y l).length = l.length + 1 := by
  induction l with
  | nil => rfl
  | cons z zs ih =>
    simp only [insDesc]
    split
    · simp
    · simp [ih]

theorem length_sortJS (le : α → α → Bool) (l : List α) :
    (sortJS le l).length = l.length := by
  induction l with
  | nil => rfl
  | cons x xs ih => simp [sortJS, length_insDesc, ih]

theorem mem_insDesc {le : α → α → Bool} {y x : α} {l : List α} :
    x ∈ insDesc le y l ↔ x = y ∨ x ∈ l := by
  induction l with
  | nil => simp [insDesc]
  | cons z zs ih =>
    simp only [insDesc]
    split
    · simp [or_comm, or_assoc, or_left_comm]
    · simp [ih]
      tauto

theorem mem_sortJS {le : α → α → Bool} {x : α} {l : List α} :
    x ∈ sortJS le l ↔ x ∈ l := by
  induction l with
  | nil => simp [sortJS]
  | cons z zs ih => simp [sortJS, mem_insDesc, ih]

theorem pairwise_insDesc {le : α → α → Bool}
    (htot : ∀ a b, le a b = true ∨ le b a = true)
    (htrans : ∀ a b c, le a b = true → le b c = true → le a c = true)
    {y : α} {l : List α} (h : l.Pairwise (fun a b => le a b = true)) :
    (insDesc le y l).Pairwise (fun a b => le a b = true) := by
  induction l with
  | nil => simp [insDesc]
  | cons z zs ih =>
    simp only [insDesc]
    split
    · rename_i hyz
      refine List.Pairwise.cons ?_ h
      intro w hw
      rcases List.mem_cons.mp hw with rfl | hw
      · exact hyz
      · exact htrans _ _ _ hyz (List.rel_of_pairwise_cons h hw)
    · rename_i hyz
      refine List.Pairwise.cons ?_ (ih (List.Pairwise.sublist (List.sublist_cons_self z zs) h))
      intro w hw
      rcases mem_insDesc.mp hw with rfl | hw
      · rcases htot w z with h1 | h1
        · exact absurd h1 hyz
        · exact h1
      · exact List.rel_of_pairwise_cons h hw

theorem pairwise_sortJS {le : α → α → Bool}
    (htot : ∀ a b, le a b = true ∨ le b a = true)
    (htrans : ∀ a b c, le a b = true → le b c = true → le a c = true)
    (l : List α) : (sortJS le l).Pairwise (fun a b => le a b = true) := by
  induction l with
  | nil => simp [sortJS]
  | cons x xs ih => exact pairwise_insDesc htot htrans ih

theorem scoreLe_total (a b : ScoredResult α) :
    scoreLe a b = true ∨ scoreLe b a = true := by
  simp only [scoreLe, decide_eq_true_eq]
  exact le_total _ _

theorem scoreLe_trans (a b c : ScoredResult α) :
    scoreLe a b = true → scoreLe b c = true → scoreLe a c = true := by
  simp only [scoreLe, decide_eq_true_eq]
  exact fun h1 h2 => le_trans h2 h1

/-! ### Lemmas about the result processor -/

theorem jsGeNum_asNum {v : SVal} {θ : ℚ} (h : jsGeNum v θ = true) :
    θ ≤ v.asNum := by
  cases v <;> simp_all [jsGeNum, SVal.toNumOpt, SVal.asNum]

theorem buildResults_ok_length {docs : List α} {io : Bool} {rs : List RawResult}
    {l : List (ScoredResult α)} (h : buildResults docs io rs = .ok l) :
    l.length = rs.length := by
  induction rs generalizing l with
  | nil => simp only [buildResults, Except.ok.injEq] at h; simp [← h]
  | cons r rs ih =>
    simp only [buildResults] at h
    split at h
    · exact absurd h (by simp)
    · cases heq : buildResults docs io rs with
      | error e => rw [heq] at h; exact absurd h (by simp)
      | ok l' =>
        rw [heq] at h
        simp only [Except.ok.injEq] at h
        simp [← h, ih heq]

theorem buildResults_ok_scores {docs : List α} {io : Bool} {rs : List RawResult}
    {l : List (ScoredResult α)} (h : buildResults docs io rs = .ok l) :
    ∀ x ∈ l, ∃ r ∈ rs, x.rerankScore = resolveScore r.relScore r.score := by
  induction rs generalizing l with
  | nil =>
    simp only [buildResults, Except.ok.injEq] at h
    simp [← h]
  | cons r rs ih =>
    simp only [buildResults] at h
    split at h
    · exact absurd h (by simp)
    · cases heq : buildResults docs io rs with
      | error e => rw [heq] at h; exact absurd h (by simp)
      | ok l' =>
        rw [heq] at h
        simp only [Except.ok.injEq] at h
        intro x hx
        rw [← h] at hx
        rcases List.mem_cons.mp hx with rfl | hx
        · exact ⟨r, List.mem_cons_self r rs, rfl⟩
        · obtain ⟨r', hr', hs⟩ := ih heq x hx
          exact ⟨r', List.mem_cons_of_mem r hr', hs⟩

theorem processRerankResults_ok {results : Option (List RawResult)}
    {docs : List α} {θ : ℚ} {io : Bool} {l : List (ScoredResult α)}
    (h : processRerankResults results docs θ io = .ok l) :
    ∃ rs, results = some rs ∧
      ∃ l', buildResults docs io
          (rs.filter (fun r => jsGeNum (resolveScore r.relScore r.score) θ)) = .ok l' ∧
        l = sortJS scoreLe l' := by
  cases results with
  | none => exact absurd h (by simp [processRerankResults])
  | some rs =>
    simp only [processRerankResults] at h
    cases heq : buildResults docs io
        (rs.filter (fun r => jsGeNum (resolveScore r.relScore r.score) θ)) with
    | error e => rw [heq] at h; exact absurd h (by simp)
    | ok l' =>
      rw [heq] at h
      simp only [Except.ok.injEq] at h
      exact ⟨rs, rfl, l', heq, h.symm⟩

/-- C4: for every call to the result processor, every returned `ScoredResult`
has resolved score at least the threshold passed for that call and the
returned list is ordered non-increasingly by resolved score; and the same two
postconditions hold for a (sorted, as every stored list is) cached list after
the cache-hit re-filtering and truncation. -/
theorem c4_threshold_filter_and_sort_order :
    (∀ (α : Type) (results : Option (List RawResult)) (docs : List α) (θ : ℚ)
        (io : Bool) (out : List (ScoredResult α)),
      processRerankResults results docs θ io = .ok out →
        (∀ x ∈ out, θ ≤ SVal.asNum x.rerankScore) ∧
          out.Pairwise (fun a b => SVal.asNum b.rerankScore ≤ SVal.asNum a.rerankScore)) ∧
    (∀ (α : Type) (cached : List (ScoredResult α)) (θ : ℚ) (topK : Nat),
      cached.Pairwise (fun a b => SVal.asNum b.rerankScore ≤ SVal.asNum a.rerankScore) →
        (∀ x ∈ cacheServe cached θ topK, θ ≤ SVal.asNum x.rerankScore) ∧
          (cacheServe cached θ topK).Pairwise
            (fun a b => SVal.asNum b.rerankScore ≤ SVal.asNum a.rerankScore)) := by
  constructor
  · intro α results docs θ io out h
    obtain ⟨rs, -, l', hb, hout⟩ := processRerankResults_ok h
    constructor
    · intro x hx
      rw [hout] at hx
      obtain ⟨r, hr, hs⟩ := buildResults_ok_scores hb x (mem_sortJS.mp hx)
      have hf := (List.mem_filter.mp hr).2
      rw [hs]
      exact jsGeNum_asNum hf
    · rw [hout]
      exact (pairwise_sortJS scoreLe_total scoreLe_trans l').imp
        (fun hab => by simpa [scoreLe] using hab)
  · intro α cached θ topK hsorted
    constructor
    · intro x hx
      have hxf := List.mem_of_mem_take hx
      exact jsGeNum_asNum (List.mem_filter.mp hxf).2
    · exact hsorted.sublist
        ((List.take_sublist _ _).trans (List.filter_sublist cached))

/-- Witness for C4 at concrete inputs: a processed response and a served
cached list. -/
theorem c4_threshold_filter_and_sort_order_witness :
    ((∀ x ∈ ([⟨some ("a"), SVal.num 9, 0⟩] : List (ScoredResult String)),
        (7 : ℚ) ≤ SVal.asNum x.rerankScore) ∧
      ([⟨some ("a"), SVal.num 9, 0⟩] : List (ScoredResult String)).Pairwise
        (fun a b => SVal.asNum b.rerankScore ≤ SVal.asNum a.rerankScore)) ∧
    ((∀ x ∈ cacheServe
        ([⟨some ("a"), SVal.num 9, 0⟩, ⟨some ("b"), SVal.num 4, 1⟩] :
          List (ScoredResult String)) 5 1,
        (5 : ℚ) ≤ SVal.asNum x.rerankScore) ∧
      (cacheServe
        ([⟨some ("a"), SVal.num 9, 0⟩, ⟨some ("b"), SVal.num 4, 1⟩] :
          List (ScoredResult String)) 5 1).Pairwise
        (fun a b => SVal.asNum b.rerankScore ≤ SVal.asNum a.rerankScore)) := by
  constructor
  · exact c4_threshold_filter_and_sort_order.1 String
      (some [⟨SVal.num 9, SVal.undefined, 0⟩, ⟨SVal.num 4, SVal.undefined, 1⟩])
      (["a", "b"]) 7 false [⟨some ("a"), SVal.num 9, 0⟩] (by decide)
  · exact c4_threshold_filter_and_sort_order.2 String
      ([⟨some ("a"), SVal.num 9, 0⟩, ⟨some ("b"), SVal.num 4, 1⟩]) 5 1
      (by simp [List.pairwise_cons, SVal.asNum, SVal.toNumOpt]; decide)

/-- C7 counterexample: a raw entry whose `relevance_score` is the truthy
non-numeric value `true` is NOT treated as score `0` — under threshold `1 > 0`
the claim predicts it is filtered out, but the processor keeps it, carrying
the boolean through as the stored `_rerankScore`. -/
theorem c7_truthy_nonnumeric_not_zero_cex :
    processRerankResults (α := String)
        (some [⟨SVal.bool true, SVal.undefined, 0⟩]) (["d"]) 1 false
      = .ok [⟨some ("d"), SVal.bool true, 0⟩] ∧
    processRerankResults (α := String)
        (some [⟨SVal.bool true, SVal.undefined, 0⟩]) (["d"]) 1 false
      ≠ .ok [] := by
  constructor
  · decide
  · decide

/-- C7 amended: the resolved score is `relevance_score` if truthy, else
`score` if truthy, else `0`; an entry whose two score fields are missing or
falsy (`undefined`, `null`, `NaN`, `0`, `false`) resolves to score `0` and
still participates in threshold filtering — kept exactly when the threshold
is ≤ 0 — while a truthy non-numeric score value is carried as-is rather than
defaulted to `0`. -/
theorem c7_falsy_score_defaults_to_zero (α : Type) (d : α) (θ : ℚ) (r : RawResult)
    (h1 : r.relScore.truthy = false) (h2 : r.score.truthy = false)
    (h3 : r.index = 0) :
    resolveScore r.relScore r.score = SVal.num 0 ∧
    processRerankResults (some [r]) [d] θ false
      = .ok (if θ ≤ 0 then [⟨some d, SVal.num 0, 0⟩] else []) := by
  have hres : resolveScore r.relScore r.score = SVal.num 0 := by
    simp [resolveScore, jsOr, h1, h2]
  refine ⟨hres, ?_⟩
  simp only [processRerankResults, List.filter, hres, h3]
  by_cases hθ : θ ≤ 0
  · have : jsGeNum (SVal.num 0) θ = true := by
      simp [jsGeNum, SVal.toNumOpt, hθ]
    simp [this, hθ, buildResults, jsIndex, hres, h3, sortJS, insDesc]
  · have : jsGeNum (SVal.num 0) θ = false := by
      simp [jsGeNum, SVal.toNumOpt]
      exact lt_of_not_le hθ
    simp [this, hθ, buildResults, sortJS]

/-- Witness for C7's amended statement: an entry with both score fields
absent, threshold `0`. -/
theorem c7_falsy_score_defaults_to_zero_witness :
    resolveScore SVal.undefined SVal.undefined = SVal.num 0 ∧
    processRerankResults (some [⟨SVal.undefined, SVal.undefined, 0⟩]) (["d"]) 0 false
      = .ok (if (0 : ℚ) ≤ 0 then [⟨some ("d"), SVal.num 0, 0⟩] else []) :=
  c7_falsy_score_defaults_to_zero String ("d") 0 ⟨SVal.undefined, SVal.undefined, 0⟩
    (by decide) (by decide) (by decide)

theorem processRerankResults_some_ok_length {rs : List RawResult} {docs : List α}
    {θ : ℚ} {io : Bool} {out : List (ScoredResult α)}
    (h : processRerankResults (some rs) docs θ io = .ok out) :
    out.length
      = (rs.filter (fun r => jsGeNum (resolveScore r.relScore r.score) θ)).length := by
  obtain ⟨rs', hrs, l', hb, hout⟩ := processRerankResults_ok h
  obtain rfl : rs = rs' := by injection hrs
  rw [hout, length_sortJS, buildResults_ok_length hb]

theorem remoteAndStore_fst_ok {docs : List α} {θ : ℚ} {io enc : Bool}
    {key : String} {c : Cache α} {now : Int}
    {net : Except Unit (Option (List RawResult))} {out : List (ScoredResult α)}
    (h : (remoteAndStore docs θ io enc key c now net).1 = .ok out) :
    ∃ results, net = .ok results ∧ processRerankResults results docs θ io = .ok out := by
  cases net with
  | error e => exact absurd h (by simp [remoteAndStore])
  | ok results =>
    refine ⟨results, rfl, ?_⟩
    simp only [remoteAndStore] at h
    cases hp : processRerankResults results docs θ io with
    | error e => rw [hp] at h; exact absurd h (by simp)
    | ok processed =>
      rw [hp] at h
      simp only [Except.ok.injEq] at h
      rw [← h]

/-- Concrete template configuration with templates disabled. -/
def tplOff : TemplateCfg := ⟨false, "qwen3", "", "", "", "", ""⟩

/-- Concrete OpenAI-compatible configuration with caching disabled. -/
def cfgNoCache : OpenAICfg := ⟨"http://h/v1/rerank", "m", false, 5, tplOff⟩

/-- Concrete OpenAI-compatible configuration with caching enabled, TTL 5. -/
def cfgCache : OpenAICfg := ⟨"http://h/v1/rerank", "m", true, 5, tplOff⟩

/-- C2 counterexample: on a cache miss the adapter returns the processed list
without local truncation, so a backend response carrying 3 qualifying entries
with `topK = 1` yields 3 results — the returned count exceeds `topK`. -/
theorem c2_fresh_path_exceeds_topk_cex :
    (rerankWithOpenAI (α := String) id cfgNoCache ("q") (["a", "b", "c"]) 1 0 false [] 0
        (.ok (some [⟨SVal.num 9, SVal.undefined, 0⟩, ⟨SVal.num 8, SVal.undefined, 1⟩,
          ⟨SVal.num 7, SVal.undefined, 2⟩]))).1
      = .ok [⟨some ("a"), SVal.num 9, 0⟩, ⟨some ("b"), SVal.num 8, 1⟩,
          ⟨some ("c"), SVal.num 7, 2⟩] ∧
    ¬ ([⟨some ("a"), SVal.num 9, 0⟩, ⟨some ("b"), SVal.num 8, 1⟩,
          ⟨some ("c"), SVal.num 7, 2⟩] : List (ScoredResult String)).length ≤ 1 := by
  constructor
  · decide
  · decide

/-- C2 amended: the returned count never exceeds `topK` on a cache hit, and on
a fresh call it never exceeds `topK` provided the backend returns at most
`topK` entries (as a conforming backend honoring `top_n = min(topK,
docs.length)` does); a non-conforming response with more than `topK`
qualifying entries is returned without local truncation. -/
theorem c2_topk_bound (α : Type) (extractF : α → String) (cfg : OpenAICfg)
    (query : String) (docs : List α) (topK : Nat) (θ : ℚ) (io : Bool)
    (cache : Cache α) (now : Int) (rs : List RawResult)
    (out : List (ScoredResult α)) (hlen : rs.length ≤ topK)
    (hout : (rerankWithOpenAI extractF cfg query docs topK θ io cache now
        (.ok (some rs))).1 = .ok out) :
    out.length ≤ topK := by
  have hfresh : ∀ enc key c,
      (remoteAndStore docs θ io enc key c now (.ok (some rs))).1 = .ok out →
        out.length ≤ topK := by
    intro enc key c h
    obtain ⟨results, hres, hp⟩ := remoteAndStore_fst_ok h
    obtain rfl : some rs = results := by injection hres
    calc out.length
        = (rs.filter (fun r => jsGeNum (resolveScore r.relScore r.score) θ)).length :=
          processRerankResults_some_ok_length hp
      _ ≤ rs.length := List.length_filter_le _ rs
      _ ≤ topK := hlen
  by_cases hc : cfg.enableCache
  · simp only [rerankWithOpenAI, hc, if_true] at hout
    rcases hget : getCachedResult cache (openAIUsedKey extractF cfg query docs)
        cfg.cacheTtl now with ⟨hit, c1⟩
    rw [hget] at hout
    cases hit with
    | some cached =>
      simp only [Except.ok.injEq] at hout
      rw [← hout]
      exact le_trans (by simp [cacheServe]) le_rfl
    | none => exact hfresh true _ c1 hout
  · simp only [rerankWithOpenAI, hc, if_false] at hout
    exact hfresh false _ cache hout

/-- Witness for C2's amended statement: cache disabled, two response entries,
`topK = 2`. -/
theorem c2_topk_bound_witness :
    ([⟨some ("a"), SVal.num 9, 0⟩, ⟨some ("b"), SVal.num 8, 1⟩] :
        List (ScoredResult String)).length ≤ 2 :=
  c2_topk_bound String id cfgNoCache ("q") (["a", "b"]) 2 0 false [] 0
    ([⟨SVal.num 9, SVal.undefined, 0⟩, ⟨SVal.num 8, SVal.undefined, 1⟩])
    ([⟨some ("a"), SVal.num 9, 0⟩, ⟨some ("b"), SVal.num 8, 1⟩])
    (by decide) (by decide)

/-- C5: cache get returns the stored result list exactly when the entry
exists and `now` minus its insertion time is strictly below
`ttlMinutes * 60000` ms; an existing expired entry is deleted as a side
effect with absence returned; a missing key returns absence with the cache
unchanged. -/
theorem c5_cache_get_ttl (α : Type) (c : Cache α) (k : String) (ttl now : Int) :
    (∀ e, mapGet c k = some e → now - e.timestamp < ttl * 60000 →
        getCachedResult c k ttl now = (some e.results, c)) ∧
    (∀ e, mapGet c k = some e → ¬ now - e.timestamp < ttl * 60000 →
        getCachedResult c k ttl now = (none, mapDelete c k)) ∧
    (mapGet c k = none → getCachedResult c k ttl now = (none, c)) := by
  have hms : ttl * 60 * 1000 = ttl * 60000 := by ring
  refine ⟨?_, ?_, ?_⟩
  · intro e he hfresh
    simp [getCachedResult, he, hms, hfresh]
  · intro e he hexp
    simp [getCachedResult, he, hms, hexp]
  · intro he
    simp [getCachedResult, he]

/-- Witness for C5 at a concrete one-entry cache: a fresh hit, an expired
hit (TTL 5 minutes, age exactly 300000 ms), and a missing key. -/
theorem c5_cache_get_ttl_witness :
    getCachedResult (α := Unit) [(("k"), ⟨[], 0⟩)] ("k") 5 1
      = (some [], [(("k"), ⟨[], 0⟩)]) ∧
    getCachedResult (α := Unit) [(("k"), ⟨[], 0⟩)] ("k") 5 300000
      = (none, mapDelete [(("k"), ⟨[], 0⟩)] ("k")) ∧
    getCachedResult (α := Unit) [(("k"), ⟨[], 0⟩)] ("x") 5 1
      = (none, [(("k"), ⟨[], 0⟩)]) :=
  ⟨(c5_cache_get_ttl Unit [(("k"), ⟨[], 0⟩)] ("k") 5 1).1 ⟨[], 0⟩
      (by decide) (by decide),
    (c5_cache_get_ttl Unit [(("k"), ⟨[], 0⟩)] ("k") 5 300000).2.1 ⟨[], 0⟩
      (by decide) (by decide),
    (c5_cache_get_ttl Unit [(("k"), ⟨[], 0⟩)] ("x") 5 1).2.2 (by decide)⟩

theorem setCachedResult_fresh {c : Cache α} {k : String}
    {res : List (ScoredResult α)} {now : Int}
    (hnotin : c.any (fun p => p.1 = k) = false) (hlen : c.length ≤ 999) :
    setCachedResult c k res now = c ++ [(k, ⟨res, now⟩)] := by
  have hset : mapSet c k ⟨res, now⟩ = c ++ [(k, (⟨res, now⟩ : CacheEntry α))] := by
    simp [mapSet, hnotin]
  have hno : ¬ 1000 < (c ++ [(k, (⟨res, now⟩ : CacheEntry α))]).length := by
    simp only [List.length_append, List.length_cons, List.length_nil]
    omega
  simp only [setCachedResult, hset]
  rw [if_neg hno]

/-- Entry stored for key index `i` in the 1001-insertions scenario. -/
def entryOf (f : ℕ → String) (i : ℕ) : String × CacheEntry Unit := (f i, ⟨[], 0⟩)

theorem foldl_setCached_range (f : ℕ → String) (hinj : Function.Injective f)
    (n : Nat) (hn : n ≤ 1000) :
    ((List.range n).map f).foldl
        (fun c k => setCachedResult (α := Unit) c k [] 0) []
      = (List.range n).map (entryOf f) := by
  induction n with
  | zero => rfl
  | succ m ih =>
    rw [List.range_succ, List.map_append, List.foldl_append, ih (by omega),
      List.map_append]
    simp only [List.map_cons, List.map_nil, List.foldl_cons, List.foldl_nil]
    have hnotin : (((List.range m).map (entryOf f)).any (fun p => p.1 = f m)) = false := by
      simp only [List.any_eq_false, decide_eq_true_eq]
      intro p hp
      obtain ⟨i, hi, rfl⟩ := List.mem_map.mp hp
      simp only [entryOf]
      exact fun hfe => absurd (hinj hfe) (Nat.ne_of_lt (List.mem_range.mp hi))
    have hlen : ((List.range m).map (entryOf f)).length ≤ 999 := by
      simp only [List.length_map, List.length_range]
      omega
    rw [setCachedResult_fresh hnotin hlen]
    simp [entryOf]

/-- C6: a put never leaves more than 1000 entries (given the bound held
before and keys are nonempty, as every fingerprint is), and inserting 1001
distinct nonempty keys into the empty cache evicts exactly the single
first-inserted entry: the final cache is precisely the entries of keys
1..1000 in insertion order, holds 1000 entries, and no longer contains the
first key. -/
theorem c6_cache_size_bound :
    (∀ (α : Type) (c : Cache α) (k : String) (res : List (ScoredResult α)) (now : Int),
      c.length ≤ 1000 → (∀ p ∈ c, p.1 ≠ "") →
        (setCachedResult c k res now).length ≤ 1000) ∧
    (∀ f : ℕ → String, Function.Injective f → (∀ i, f i ≠ "") →
      ((List.range 1001).map f).foldl
          (fun c k => setCachedResult (α := Unit) c k [] 0) []
        = ((List.range 1001).drop 1).map (entryOf f) ∧
      (((List.range 1001).map f).foldl
          (fun c k => setCachedResult (α := Unit) c k [] 0) []).length = 1000 ∧
      mapGet (((List.range 1001).map f).foldl
          (fun c k => setCachedResult (α := Unit) c k [] 0) []) (f 0) = none) := by
  constructor
  · intro α c k res now hlen hkeys
    by_cases hin : c.any (fun p => p.1 = k) = true
    · have h1 : (mapSet c k (⟨res, now⟩ : CacheEntry α)).length = c.length := by
        simp [mapSet, hin]
      simp only [setCachedResult]
      split
      · rename_i hgt
        rw [h1] at hgt
        exact absurd hgt (by omega)
      · rw [h1]
        exact hlen
    · have hin' : c.any (fun p => p.1 = k) = false := by
        cases hb : c.any (fun p => p.1 = k) with
        | false => rfl
        | true => exact absurd hb hin
      have h1 : mapSet c k (⟨res, now⟩ : CacheEntry α) = c ++ [(k, ⟨res, now⟩)] := by
        simp [mapSet, hin']
      simp only [setCachedResult]
      split
      · rename_i hgt
        rw [h1] at hgt
        simp only [List.length_append, List.length_cons, List.length_nil] at hgt
        have hc1000 : c.length = 1000 := by omega
        split
        · rename_i heq
          rw [h1] at heq
          exact absurd heq (by simp)
        · rename_i k0 e0 tl heq
          cases c with
          | nil => simp at hc1000
          | cons hd tlc =>
            rw [h1, List.cons_append] at heq
            injection heq with heq1 heq2
            have hk0 : k0 ≠ "" := by
              have hmem := hkeys hd (List.mem_cons_self hd tlc)
              rw [heq1] at hmem
              exact hmem
            rw [if_neg hk0, h1, List.cons_append, heq1]
            have hdel : mapDelete ((k0, e0) ::
                (tlc ++ [(k, (⟨res, now⟩ : CacheEntry α))])) k0
                = tlc ++ [(k, ⟨res, now⟩)] := by
              simp [mapDelete, List.eraseP_cons_of_pos]
            rw [hdel]
            simp only [List.length_append, List.length_cons, List.length_nil]
            simp only [List.length_cons] at hc1000
            omega
      · rename_i hng
        omega
  · intro f hinj hne
    have hr : (List.range 1001).drop 1 = List.range' 1 1000 := by
      rw [List.range_eq_range']
      rfl
    have hfold : ((List.range 1001).map f).foldl
        (fun c k => setCachedResult (α := Unit) c k [] 0) []
      = (List.range' 1 1000).map (entryOf f) := by
      rw [show (1001 : Nat) = 1000 + 1 from rfl, List.range_succ, List.map_append,
        List.foldl_append, foldl_setCached_range f hinj 1000 le_rfl]
      simp only [List.map_cons, List.map_nil, List.foldl_cons, List.foldl_nil]
      have hnotin : (((List.range 1000).map (entryOf f)).any
          (fun p => p.1 = f 1000)) = false := by
        simp only [List.any_eq_false, decide_eq_true_eq]
        intro p hp
        obtain ⟨i, hi, rfl⟩ := List.mem_map.mp hp
        simp only [entryOf]
        exact fun hfe => absurd (hinj hfe) (Nat.ne_of_lt (List.mem_range.mp hi))
      have hset : mapSet ((List.range 1000).map (entryOf f)) (f 1000) ⟨[], 0⟩
          = ((List.range 1000).map (entryOf f)) ++ [(f 1000, ⟨[], 0⟩)] := by
        simp [mapSet, hnotin]
      have hgt : 1000 < (((List.range 1000).map (entryOf f))
          ++ [(f 1000, (⟨[], 0⟩ : CacheEntry Unit))]).length := by
        simp only [List.length_append, List.length_map, List.length_range,
          List.length_cons, List.length_nil]
        omega
      have hc : (List.range 1000).map (entryOf f)
          = entryOf f 0 :: (List.range' 1 999).map (entryOf f) := by
        rw [List.range_eq_range']
        rfl
      simp only [setCachedResult, hset]
      rw [if_pos hgt, hc, List.cons_append]
      simp only [entryOf]
      rw [if_neg (hne 0)]
      have hdel : mapDelete ((f 0, (⟨[], 0⟩ : CacheEntry Unit)) ::
          ((List.range' 1 999).map (entryOf f) ++ [(f 1000, ⟨[], 0⟩)])) (f 0)
          = (List.range' 1 999).map (entryOf f) ++ [(f 1000, ⟨[], 0⟩)] := by
        simp [mapDelete, List.eraseP_cons_of_pos]
      rw [hdel]
      have hsplit : List.range' 1 1000 = List.range' 1 999 ++ [1000] := by
        simpa using @List.range'_concat 1 1 999
      rw [hsplit, List.map_append]
      simp [entryOf]
    have hfold' : ((List.range 1001).map f).foldl
        (fun c k => setCachedResult (α := Unit) c k [] 0) []
      = ((List.range 1001).drop 1).map (entryOf f) := by
      rw [hfold, hr]
    refine ⟨hfold', ?_, ?_⟩
    · rw [hfold]
      simp
    · rw [hfold]
      have hfind : List.find? (fun p => p.1 = f 0)
          ((List.range' 1 1000).map (entryOf f)) = none := by
        apply List.find?_eq_none.mpr
        intro p hp
        obtain ⟨i, hi, rfl⟩ := List.mem_map.mp hp
        have hi1 : 1 ≤ i := (List.mem_range'_1.mp hi).1
        simp only [entryOf, decide_eq_true_eq]
        exact fun hfe => absurd (hinj hfe) (by omega)
      simp [mapGet, hfind]

/-- Witness for C6: part one at a concrete one-entry cache, part two at the
injective key family sending `n` to the string of `n + 1` letters `a`. -/
theorem c6_cache_size_bound_witness :
    (setCachedResult (α := Unit) [(("k"), ⟨[], 0⟩)] ("j") [] 5).length ≤ 1000 ∧
    mapGet ((((List.range 1001).map
          (fun n => String.mk (List.replicate (n + 1) 'a'))).foldl
        (fun c k => setCachedResult (α := Unit) c k [] 0) []))
      (String.mk (List.replicate 1 'a')) = none := by
  have hinj : Function.Injective (fun n => String.mk (List.replicate (n + 1) 'a')) := by
    intro a b h
    have hd : List.replicate (a + 1) 'a' = List.replicate (b + 1) 'a' :=
      congrArg String.data h
    have hlen := congrArg List.length hd
    simpa using hlen
  have hne : ∀ i, (fun n => String.mk (List.replicate (n + 1) 'a')) i ≠ "" := by
    intro i h
    have hd := congrArg String.data h
    simp at hd
  exact ⟨c6_cache_size_bound.1 Unit [(("k"), ⟨[], 0⟩)] ("j") [] 5 (by decide)
      (by decide),
    (c6_cache_size_bound.2 (fun n => String.mk (List.replicate (n + 1) 'a'))
      hinj hne).2.2⟩
/-- C3 counterexample: a self-referential object carrying none of the four
named text fields falls through to `JSON.stringify`, which raises the
circular-structure `TypeError` — extraction errors instead of returning a
string. -/
theorem c3_cyclic_doc_extraction_throws_cex :
    extractText [[(("self"), JVal.obj 0)]] (JVal.obj 0) = .error () := by
  decide

/-- C3 amended: extraction (a total function here) returns without error for
every document that provides a truthy value under one of the four named text
fields; the error case is exactly the serialization fall-through of a
self-referential object, which raises instead of returning a string. -/
theorem c3_extraction_ok_of_truthy_field (st : JStore) (v : JVal)
    (h : hasTruthyTextField st v = true) :
    ∃ w, extractText st v = .ok w := by
  simp only [extractText]
  split_ifs with h1 h2 h3 h4
  · exact ⟨_, rfl⟩
  · exact ⟨_, rfl⟩
  · exact ⟨_, rfl⟩
  · exact ⟨_, rfl⟩
  · simp only [hasTruthyTextField, h1, h2, h3, h4] at h
    simp at h

/-- Witness for C3's amended statement: a document with a truthy `text`
field. -/
theorem c3_extraction_ok_of_truthy_field_witness :
    ∃ w, extractText [[(("text"), JVal.str ("T"))]] (JVal.obj 0) = .ok w :=
  c3_extraction_ok_of_truthy_field [[(("text"), JVal.str ("T"))]] (JVal.obj 0)
    (by decide)

/-- C8: the cache key the OpenAI-compatible adapter uses — on both the lookup
and the store site — is computed from the raw query and raw extracted
document texts; it is invariant under the template configuration, so two
calls identical in (query, documents, model) but differing in template
enablement or template content produce the same cache key. -/
theorem c8_cache_key_ignores_templates (α : Type) (extractF : α → String)
    (base : OpenAICfg) (query : String) (docs : List α) (t1 t2 : TemplateCfg) :
    openAIUsedKey extractF { base with tpl := t1 } query docs
      = openAIUsedKey extractF { base with tpl := t2 } query docs := rfl

theorem getCachedResult_snd_sublist (c : Cache α) (k : String) (ttl now : Int) :
    ((getCachedResult c k ttl now).2).Sublist c := by
  simp only [getCachedResult]
  cases mapGet c k with
  | none => exact List.Sublist.refl c
  | some e =>
    simp only
    split
    · exact List.Sublist.refl c
    · exact List.eraseP_sublist c

theorem remoteAndStore_snd_of_error {docs : List α} {θ : ℚ} {io enc : Bool}
    {key : String} {c : Cache α} {now : Int}
    {net : Except Unit (Option (List RawResult))} {e : RerankErr}
    (h : (remoteAndStore docs θ io enc key c now net).1 = .error e) :
    (remoteAndStore docs θ io enc key c now net).2 = c := by
  cases net with
  | error u => rfl
  | ok results =>
    simp only [remoteAndStore] at h ⊢
    cases hp : processRerankResults results docs θ io with
    | error pe => simp [hp]
    | ok processed =>
      rw [hp] at h
      exact absurd h (by simp)

theorem remoteAndStore_snd_nocache {docs : List α} {θ : ℚ} {io : Bool}
    {key : String} {c : Cache α} {now : Int}
    {net : Except Unit (Option (List RawResult))} :
    (remoteAndStore docs θ io false key c now net).2 = c := by
  cases net with
  | error u => rfl
  | ok results =>
    simp only [remoteAndStore]
    cases hp : processRerankResults results docs θ io with
    | error pe => simp [hp]
    | ok processed => simp [hp]

/-- C9 amended: whenever a call fails — transport or API failure of the
remote request, or a successful request with an invalid/missing results
payload, or the processing `TypeError` — it performs no cache store: the
final cache is a sublist of the initial one, identical except that an
already-expired entry under the call's fingerprint may have been deleted by
the TTL check during the initial lookup; and with caching disabled the
cache is returned untouched whatever the outcome. -/
theorem c9_failure_no_cache_write (α : Type) (extractF : α → String)
    (cfg : OpenAICfg) (query : String) (docs : List α) (topK : Nat) (θ : ℚ)
    (io : Bool) (cache : Cache α) (now : Int)
    (net : Except Unit (Option (List RawResult))) :
    (∀ e : RerankErr,
      (rerankWithOpenAI extractF cfg query docs topK θ io cache now net).1
          = .error e →
        ((rerankWithOpenAI extractF cfg query docs topK θ io cache now
            net).2).Sublist cache) ∧
    (cfg.enableCache = false →
      (rerankWithOpenAI extractF cfg query docs topK θ io cache now net).2
        = cache) := by
  have hnc : cfg.enableCache = false →
      rerankWithOpenAI extractF cfg query docs topK θ io cache now net
        = remoteAndStore docs θ io false (openAIUsedKey extractF cfg query docs)
            cache now net := by
    intro h
    simp [rerankWithOpenAI, h]
  constructor
  · intro e hfail
    by_cases hc : cfg.enableCache
    · simp only [rerankWithOpenAI, hc, if_true] at hfail ⊢
      rcases hget : getCachedResult cache (openAIUsedKey extractF cfg query docs)
          cfg.cacheTtl now with ⟨hit, c1⟩
      rw [hget] at hfail
      have hsub : c1.Sublist cache := by
        have h := getCachedResult_snd_sublist cache
          (openAIUsedKey extractF cfg query docs) cfg.cacheTtl now
        rw [hget] at h
        exact h
      cases hit with
      | some cached => exact absurd hfail (by simp)
      | none =>
        show ((remoteAndStore docs θ io true
            (openAIUsedKey extractF cfg query docs) c1 now net).2).Sublist cache
        have hfail' : (remoteAndStore docs θ io true
            (openAIUsedKey extractF cfg query docs) c1 now net).1 = .error e := hfail
        rw [remoteAndStore_snd_of_error hfail']
        exact hsub
    · have hc' : cfg.enableCache = false := by
        cases hb : cfg.enableCache with
        | false => rfl
        | true => exact absurd hb hc
      rw [hnc hc'] at hfail ⊢
      rw [remoteAndStore_snd_of_error hfail]
  · intro hc
    rw [hnc hc]
    exact remoteAndStore_snd_nocache

set_option maxRecDepth 40000 in
/-- Witness for C9's amended statement: the first part at a call whose
request succeeds but carries a missing results list (the invalid-response
failure, `procErr invalidResults`), the second at a cache-disabled call with
a transport failure. -/
theorem c9_failure_no_cache_write_witness :
    ((rerankWithOpenAI (α := String) id cfgCache ("q") (["a"]) 1 0 false [] 0
        (.ok none)).2).Sublist [] ∧
    (rerankWithOpenAI (α := String) id cfgNoCache ("q") (["a"]) 1 0 false [] 0
        (.error ())).2 = [] :=
  ⟨(c9_failure_no_cache_write String id cfgCache ("q") (["a"]) 1 0 false [] 0
      (.ok none)).1 (.procErr .invalidResults) (by decide),
    (c9_failure_no_cache_write String id cfgNoCache ("q") (["a"]) 1 0 false [] 0
      (.error ())).2 rfl⟩

set_option maxRecDepth 40000 in
/-- C9 counterexample: with caching enabled and an expired entry stored under
the call's fingerprint, a failing call still deletes that entry during the
lookup — the cache is NOT left unmodified by the failing call. -/
theorem c9_failure_modified_cache_cex :
    (rerankWithOpenAI (α := String) id cfgCache ("q") (["a"]) 1 0 false
        [(openAIUsedKey id cfgCache ("q") (["a"]), ⟨[], 0⟩)] 1000000000
        (.error ())).2
      = [] ∧
    ([] : Cache String) ≠ [(openAIUsedKey id cfgCache ("q") (["a"]), ⟨[], 0⟩)] := by
  constructor
  · decide
  · decide

set_option maxRecDepth 40000 in
/-- C1: the adapter stores the threshold-filtered processed list, not the
pre-filter candidate set the specification's invariant demands.  With backend
scores 9 and 4: a first call at threshold 7 caches only the score-9 entry; a
second call at threshold 0 within the TTL is served 1 result from that entry,
while the identical call answered fresh from the same response returns 2 —
the cached entry cannot serve lower-threshold requests. -/
theorem c1_cache_stores_filtered_list_bug :
    (let resp : Except Unit (Option (List RawResult)) :=
      .ok (some [⟨SVal.num 9, SVal.undefined, 0⟩, ⟨SVal.num 4, SVal.undefined, 1⟩]);
    let r1 := rerankWithOpenAI (α := String) id cfgCache ("q") (["a", "b"]) 10 7
      false [] 0 resp;
    let r2 := rerankWithOpenAI (α := String) id cfgCache ("q") (["a", "b"]) 10 0
      false r1.2 1000 resp;
    let rf := rerankWithOpenAI (α := String) id cfgCache ("q") (["a", "b"]) 10 0
      false [] 1000 resp;
    r2.1 = .ok [⟨some ("a"), SVal.num 9, 0⟩] ∧
      rf.1 = .ok [⟨some ("a"), SVal.num 9, 0⟩, ⟨some ("b"), SVal.num 4, 1⟩] ∧
      r2.1 ≠ rf.1) := by
  refine ⟨by decide, by decide, by decide⟩

/-- C10: an input item whose documents field holds an empty array yields an
output item with `rerankedDocs = []`, `originalCount = 0` and
`rerankedCount = 0`, with the cache untouched and no backend adapter (hence
no network or cache activity) invoked — for any service and any network
behavior, provided the query passes the preceding non-blank validation. -/
theorem c10_empty_docs_short_circuit (α : Type) (extractF : α → String)
    (service query : String) (topK : Nat) (θ : ℚ) (io : Bool)
    (ocfg : OpenAICfg) (ccfg : CohereCfg) (cred : Option String)
    (cache : Cache α) (now : Int) (net : Except Unit (Option (List RawResult)))
    (hq : jsTrim query ≠ "") :
    executeItem extractF service query (DocsVal.arr []) topK θ io ocfg ccfg cred
        cache now net
      = (.ok ⟨[], 0, 0, query⟩, cache, false) := by
  have hq0 : ¬ (query = "" ∨ jsTrim query = "") := by
    rintro (rfl | h)
    · exact hq rfl
    · exact hq h
  simp only [executeItem]
  rw [if_neg hq0]
  simp

/-- Witness for C10 at a concrete item with query `"q"` and an empty
documents array. -/
theorem c10_empty_docs_short_circuit_witness :
    executeItem (α := Unit) (fun _ => "t") ("openai-compatible") ("q")
        (DocsVal.arr []) 5 0 false ⟨"e", "m", false, 5, tplOff⟩
        ⟨"rerank-v3.5", "", false, 5⟩ none [] 0 (.error ())
      = (.ok ⟨[], 0, 0, "q"⟩, [], false) :=
  c10_empty_docs_short_circuit Unit (fun _ => "t") ("openai-compatible") ("q")
    5 0 false ⟨"e", "m", false, 5, tplOff⟩ ⟨"rerank-v3.5", "", false, 5⟩ none []
    0 (.error ()) (by decide)

end URR
